import Mathlib

/-!
Shallow embedding of the diagnostic-instrumented allocation layer in
common-src/alloc.c (Amanda), together with proofs settling the frozen
claims about it.

Strings are modelled as `List Char` (the bytes before the terminating
nul); the platform allocator is modelled by explicit success/failure
data (an `Option`-valued malloc, or a success oracle indexed by the
order of allocation calls inside one operation); the fatal
`errordump` path is the `fatal` constructor of `AllocResult`.
-/

namespace Amanda

/-- Outcome of an operation that either returns a value or takes the
fatal `errordump` path (which never returns to the caller). -/
inductive AllocResult (α : Type) where
  | ok : α → AllocResult α
  | fatal : AllocResult α
deriving DecidableEq

/-- Embedding of `debug_alloc` (alloc.c:121-140): requests
`max(size, 1)` bytes from the platform allocator `malloc` (modelled as
a function from the requested byte count to `some buffer` on success
and `none` on exhaustion); a `none` result triggers `errordump`
(fatal), a `some` result is returned to the caller. -/
def debug_alloc (malloc : Nat → Option Nat) (size : Nat) : AllocResult Nat :=
  match malloc (max size 1) with
  | none => AllocResult.fatal
  | some addr => AllocResult.ok addr

/-- The 64-byte initial buffer used by `debug_vstrallocf`
(`MIN_ALLOC` in alloc.c:37). -/
def MIN_ALLOC : Nat := 64

/-- A freshly allocated C string buffer: `cap` is the allocated byte
count, `data` the stored characters before the terminating nul
(so the stored bytes are `data.length + 1 ≤ cap`). -/
structure StrBuf where
  cap : Nat
  data : List Char
deriving DecidableEq

/-- The characters `vsnprintf(buf, cap, fmt, args)` stores in a buffer
of `cap` bytes when the full rendering of `fmt`/`args` is `rendered`:
at most `cap - 1` characters plus the terminating nul. -/
def vsnprintfOut (cap : Nat) (rendered : List Char) : List Char :=
  rendered.take (cap - 1)

/-- Embedding of `debug_vstrallocf` (alloc.c:317-349), parametrised by
the full rendering `rendered` of the format string and arguments
(`vsnprintf` is an external collaborator; its return value is
`rendered.length`).  The code first allocates `MIN_ALLOC` bytes and
renders into them; if the required length `size` satisfies
`size >= MIN_ALLOC` it frees that buffer, allocates `size + 1` bytes
and re-renders, otherwise it returns the `MIN_ALLOC`-byte buffer.
Both `debug_alloc` calls are fatal on platform failure, so a returned
buffer always has the allocated capacity shown here. -/
def debug_vstrallocf (rendered : List Char) : StrBuf :=
  let size := rendered.length
  if MIN_ALLOC ≤ size then
    { cap := size + 1, data := vsnprintfOut (size + 1) rendered }
  else
    { cap := MIN_ALLOC, data := vsnprintfOut MIN_ALLOC rendered }

/-- Claim C6: for every size, `debug_alloc` requests `max(size, 1)`
bytes from the platform allocator (so a zero-size request requests a
positive amount and is treated exactly like a one-byte request), and
it never returns a failure value: either the platform allocation
succeeds and that buffer is returned, or the fatal path is taken. -/
theorem debug_alloc_total (malloc : Nat → Option Nat) (size : Nat) :
    1 ≤ max size 1
    ∧ debug_alloc malloc 0 = debug_alloc malloc 1
    ∧ ((malloc (max size 1) = none ∧ debug_alloc malloc size = AllocResult.fatal)
       ∨ (∃ addr, malloc (max size 1) = some addr
            ∧ debug_alloc malloc size = AllocResult.ok addr)) := by
  refine ⟨le_max_right _ _, rfl, ?_⟩
  unfold debug_alloc
  cases h : malloc (max size 1) with
  | none => exact Or.inl ⟨rfl, rfl⟩
  | some addr => exact Or.inr ⟨addr, rfl, rfl⟩

/-- Counterexample to claim C1 as stated: for the empty rendering the
returned buffer occupies 64 allocated bytes, not the rendered length
plus one terminator byte (which would be 1). -/
theorem vstrallocf_exact_cex :
    (debug_vstrallocf []).cap = 64 ∧ ¬ (debug_vstrallocf []).cap = List.length ([] : List Char) + 1 := by
  constructor
  · rfl
  · decide

/-- Claim C1, amended: the string returned by `debug_vstrallocf` has
exactly the rendered characters as content, and its buffer is sized
exactly rendered length plus one terminator byte when the rendered
length meets or exceeds the 64-byte initial buffer; when the rendered
length is below 64, the returned buffer is the 64-byte initial buffer
(so there is tail capacity beyond the terminator in that case). -/
theorem vstrallocf_sizing (rendered : List Char) :
    (debug_vstrallocf rendered).data = rendered
    ∧ (MIN_ALLOC ≤ rendered.length →
        (debug_vstrallocf rendered).cap = rendered.length + 1)
    ∧ (rendered.length < MIN_ALLOC →
        (debug_vstrallocf rendered).cap = MIN_ALLOC) := by
  unfold debug_vstrallocf vsnprintfOut
  by_cases h : MIN_ALLOC ≤ rendered.length
  · rw [if_pos h]
    refine ⟨?_, fun _ => rfl, fun hlt => absurd h (not_le.mpr hlt)⟩
    exact List.take_of_length_le (by omega)
  · rw [if_neg h]
    refine ⟨?_, fun hge => absurd hge h, fun _ => rfl⟩
    have hlt : rendered.length < MIN_ALLOC := not_le.mp h
    exact List.take_of_length_le (by unfold MIN_ALLOC at hlt ⊢; omega)

/-- Witness for the amended claim C1 at concrete inputs: a 70-character
rendering gets a buffer of exactly 71 bytes, a 2-character rendering
gets the 64-byte initial buffer. -/
theorem vstrallocf_sizing_witness :
    (debug_vstrallocf (List.replicate 70 'x')).cap = 70 + 1
    ∧ (debug_vstrallocf ['h', 'i']).cap = MIN_ALLOC :=
  ⟨by
    have h := (vstrallocf_sizing (List.replicate 70 'x')).2.1 (by decide)
    simpa using h,
   (vstrallocf_sizing ['h', 'i']).2.2 (by decide)⟩

/-- The bound on string arguments collected by `internal_vstralloc`
(`MAX_VSTRALLOC_ARGS` in alloc.c:190). -/
def MAX_VSTRALLOC_ARGS : Nat := 32

/-- The argument-collection loop of `internal_vstralloc`
(alloc.c:218-233): walks the further arguments in order with `a` the
number of argument slots already used (the first argument always
occupies slot 0, so the loop starts at `a = 1`).  A zero-length
argument is skipped without touching `a`; a non-empty argument first
checks `a >= MAX_VSTRALLOC_ARGS` — `errordump` (modelled `none`) on
overflow — and is otherwise appended.  Returns the accepted
arguments in argument order. -/
def vstrallocCollect : List (List Char) → Nat → Option (List (List Char))
  | [], _ => some []
  | next :: rest, a =>
    if next.length = 0 then
      vstrallocCollect rest a
    else if MAX_VSTRALLOC_ARGS ≤ a then
      none
    else
      (vstrallocCollect rest (a + 1)).map (fun l => next :: l)

/-- Embedding of `internal_vstralloc` (alloc.c:192-245): a `none`
first argument is fatal (`errordump`); otherwise the further
arguments are collected under the argument bound, the total length is
the sum of the accepted argument lengths, a buffer of `total + 1`
bytes is allocated (`debug_alloc`, fatal on platform failure), and
the accepted arguments are copied in order followed by the
terminating nul. -/
def internal_vstralloc (str : Option (List Char)) (rest : List (List Char)) :
    AllocResult StrBuf :=
  match str with
  | none => AllocResult.fatal
  | some s =>
    match vstrallocCollect rest 1 with
    | none => AllocResult.fatal
    | some args =>
      let total := s.length + (args.map List.length).sum
      AllocResult.ok { cap := total + 1, data := s ++ args.flatten }

/-- When the slots already used plus the non-empty arguments still to
come fit in the bound, the collection loop accepts exactly the
non-empty arguments, in order. -/
theorem vstrallocCollect_ok (rest : List (List Char)) :
    ∀ a : Nat, a + rest.countP (fun x => !x.isEmpty) ≤ MAX_VSTRALLOC_ARGS →
      vstrallocCollect rest a = some (rest.filter (fun x => !x.isEmpty)) := by
  induction rest with
  | nil => intro a _; rfl
  | cons next rest ih =>
    intro a h
    by_cases hlen : next.length = 0
    · have hemp : next.isEmpty = true := by
        rw [List.isEmpty_iff]
        exact List.length_eq_zero.mp hlen
      rw [vstrallocCollect, if_pos hlen]
      simp only [List.countP_cons, hemp, Bool.not_true, cond_false, ite_false] at h
      simp only [List.filter_cons, hemp, Bool.not_true, ite_false]
      exact ih a (by omega)
    · have hemp : next.isEmpty = false := by
        rcases next with _ | _
        · exact absurd rfl hlen
        · rfl
      simp only [List.countP_cons, hemp, Bool.not_false, ite_true] at h
      have hlt : ¬ MAX_VSTRALLOC_ARGS ≤ a := by omega
      rw [vstrallocCollect, if_neg hlen, if_neg hlt]
      simp only [List.filter_cons, hemp, Bool.not_false, ite_true]
      rw [ih (a + 1) (by omega)]
      rfl

/-- The collection loop takes the fatal path exactly when the slots
already used plus the non-empty arguments still to come exceed the
bound (for any reachable slot count, i.e. `a ≤ 32`). -/
theorem vstrallocCollect_none_iff (rest : List (List Char)) :
    ∀ a : Nat, a ≤ MAX_VSTRALLOC_ARGS →
      (vstrallocCollect rest a = none ↔
        MAX_VSTRALLOC_ARGS + 1 ≤ a + rest.countP (fun x => !x.isEmpty)) := by
  induction rest with
  | nil =>
    intro a ha
    simp only [vstrallocCollect, List.countP_nil]
    constructor
    · intro h; exact absurd h (by simp)
    · intro h; exact absurd h (by omega)
  | cons next rest ih =>
    intro a ha
    by_cases hlen : next.length = 0
    · have hemp : next.isEmpty = true := by
        rw [List.isEmpty_iff]
        exact List.length_eq_zero.mp hlen
      rw [vstrallocCollect, if_pos hlen]
      simp only [List.countP_cons, hemp, Bool.not_true, ite_false]
      exact ih a ha
    · have hemp : next.isEmpty = false := by
        rcases next with _ | _
        · exact absurd rfl hlen
        · rfl
      rw [vstrallocCollect, if_neg hlen]
      simp only [List.countP_cons, hemp, Bool.not_false, ite_true]
      by_cases hge : MAX_VSTRALLOC_ARGS ≤ a
      · rw [if_pos hge]
        simp only [true_iff]
        omega
      · rw [if_neg hge]
        rw [Option.map_eq_none', ih (a + 1) (by omega)]
        omega

/-- Zero-length arguments contribute no bytes: flattening the
non-empty arguments gives the same bytes as flattening them all. -/
theorem flatten_filter_not_isEmpty (l : List (List Char)) :
    (l.filter (fun x => !x.isEmpty)).flatten = l.flatten := by
  induction l with
  | nil => rfl
  | cons x l ih =>
    by_cases hx : x.isEmpty
    · have hx0 : x = [] := List.isEmpty_iff.mp hx
      subst hx0
      simp only [List.filter_cons, List.isEmpty_nil, Bool.not_true, ite_false,
        List.flatten_cons, List.nil_append]
      exact ih
    · have hx' : x.isEmpty = false := Bool.not_eq_true _ |>.mp hx
      simp only [List.filter_cons, hx', Bool.not_false, ite_true]
      rw [List.flatten_cons, List.flatten_cons, ih]

/-- Claim C4: for every non-null first argument and every argument
list within the 32-total-argument bound, `internal_vstralloc` returns
a string holding each argument's bytes in argument order, of length
equal to the sum of all argument lengths, in a buffer of exactly that
length plus one terminator byte; zero-length arguments contribute no
bytes and do not break concatenation of the following arguments. -/
theorem vstralloc_concat (s : List Char) (rest : List (List Char))
    (hb : 1 + rest.length ≤ MAX_VSTRALLOC_ARGS) :
    ∃ buf, internal_vstralloc (some s) rest = AllocResult.ok buf
      ∧ buf.data = s ++ rest.flatten
      ∧ buf.data.length = s.length + (rest.map List.length).sum
      ∧ buf.cap = buf.data.length + 1 := by
  have hcnt : rest.countP (fun x => !x.isEmpty) ≤ rest.length :=
    List.countP_le_length _
  have hcol := vstrallocCollect_ok rest 1 (by omega)
  have hsum : ((rest.filter (fun x => !x.isEmpty)).map List.length).sum
      = (rest.map List.length).sum := by
    have h := congrArg List.length (flatten_filter_not_isEmpty rest)
    simpa only [List.length_flatten] using h
  refine ⟨{ cap := s.length + ((rest.filter (fun x => !x.isEmpty)).map List.length).sum + 1,
            data := s ++ (rest.filter (fun x => !x.isEmpty)).flatten },
          ?_, ?_, ?_, ?_⟩
  · unfold internal_vstralloc
    rw [hcol]
  · rw [flatten_filter_not_isEmpty]
  · rw [List.length_append, List.length_flatten, hsum]
  · rw [List.length_append, List.length_flatten]

/-- Witness for claim C4 at the spec's concrete inputs:
`concat("ab","cd","ef")` and `concat("","","")`. -/
theorem vstralloc_concat_witness :
    (∃ buf, internal_vstralloc (some ['a', 'b']) [['c', 'd'], ['e', 'f']] = AllocResult.ok buf
      ∧ buf.data = ['a', 'b'] ++ [['c', 'd'], ['e', 'f']].flatten
      ∧ buf.data.length = List.length ['a', 'b'] + ([['c', 'd'], ['e', 'f']].map List.length).sum
      ∧ buf.cap = buf.data.length + 1)
    ∧ (∃ buf, internal_vstralloc (some []) ([[], []] : List (List Char)) = AllocResult.ok buf
      ∧ buf.data = [] ++ ([[], []] : List (List Char)).flatten
      ∧ buf.data.length
          = List.length ([] : List Char) + (([[], []] : List (List Char)).map List.length).sum
      ∧ buf.cap = buf.data.length + 1) :=
  ⟨vstralloc_concat ['a', 'b'] [['c', 'd'], ['e', 'f']] (by decide),
   vstralloc_concat [] ([[], []] : List (List Char)) (by decide)⟩

/-- Counterexample to claim C5 as stated: with a one-character first
argument and 33 zero-length further arguments the total number of
string arguments is 34, exceeding the bound of 32, yet the call is
not fatal — it returns the first argument's bytes normally, because
the code skips zero-length arguments before checking the bound. -/
theorem vstralloc_bound_cex :
    MAX_VSTRALLOC_ARGS + 1 ≤ 1 + (List.replicate 33 ([] : List Char)).length
    ∧ internal_vstralloc (some ['a']) (List.replicate 33 [])
        = AllocResult.ok { cap := 2, data := ['a'] } := by
  constructor
  · decide
  · rfl

/-- Claim C5, amended: `internal_vstralloc` terminates fatally exactly
when its first argument is null or the number of non-empty further
arguments reaches 32 (zero-length arguments are skipped before the
bound check, so they never count toward the bound); in every other
case it returns normally, and exceeding the bound is never a silent
truncation of the argument list. -/
theorem vstralloc_fatal_iff (str : Option (List Char)) (rest : List (List Char)) :
    internal_vstralloc str rest = AllocResult.fatal ↔
      str = none ∨ MAX_VSTRALLOC_ARGS ≤ rest.countP (fun x => !x.isEmpty) := by
  cases str with
  | none => simp [internal_vstralloc]
  | some s =>
    have hiff := vstrallocCollect_none_iff rest 1 (by decide)
    unfold internal_vstralloc
    cases hc : vstrallocCollect rest 1 with
    | none =>
      have hcnt := hiff.mp hc
      constructor
      · intro _
        exact Or.inr (by omega)
      · intro _
        rfl
    | some args =>
      have hnot : ¬ (MAX_VSTRALLOC_ARGS + 1 ≤ 1 + rest.countP (fun x => !x.isEmpty)) := by
        intro hx
        rw [hiff.mpr hx] at hc
        exact absurd hc (by simp)
      constructor
      · intro h
        simp at h
      · intro h
        rcases h with h | h
        · exact absurd h (by simp)
        · exact absurd (by omega) hnot

/-- The capacity computed by `debug_amtable_alloc` when it grows
(alloc.c:521): `((count + bump) / bump) * bump` in C integer
arithmetic. -/
def newCapOf (count bump : Nat) : Nat := ((count + bump) / bump) * bump

/-- The spec-side formula for comparison: the smallest multiple of
`bump` that is greater than or equal to `count`, written
`ceil(count / bump) * bump`. -/
def specRoundUp (count bump : Nat) : Nat := ((count + bump - 1) / bump) * bump

/-- The effect of one `init_func` call (alloc.c:533) on the byte
image of the table: the initializer receives a pointer to element `i`
and rewrites that element's `elsize`-byte block. -/
def applyInitAt (f : List Nat → List Nat) (tbl : List Nat) (elsize i : Nat) : List Nat :=
  tbl.take (i * elsize) ++ f ((tbl.drop (i * elsize)).take elsize)
    ++ tbl.drop (i * elsize + elsize)

/-- The initializer loop of `debug_amtable_alloc` (alloc.c:531-535):
`init_func` is applied once per index in `idxs`, left to right (the C
loop runs `i` from `*current` up to the new capacity in ascending
order). -/
def runInits (f : List Nat → List Nat) (elsize : Nat) (tbl : List Nat)
    (idxs : List Nat) : List Nat :=
  idxs.foldl (fun t i => applyInitAt f t elsize i) tbl

/-- Embedding of `debug_amtable_alloc` (alloc.c:505-539), at the level
of the table's byte image (`List Nat`, one entry per byte).  If
`count >= *current` the code computes the new capacity, allocates a
fresh region (`debug_alloc`, fatal on platform failure), copies the
first `current * elsize` bytes of the old region, zero-fills the
bytes from offset `current * elsize` to the end of the new region,
runs the optional initializer once per new element index in ascending
order, and stores the new capacity; otherwise nothing changes.
Returns the new byte image together with the new element capacity. -/
def debug_amtable_alloc (table : List Nat) (current elsize count bump : Nat)
    (init_fn : Option (List Nat → List Nat)) : List Nat × Nat :=
  if current ≤ count then
    let tcn := newCapOf count bump
    let zeroed := table.take (current * elsize)
      ++ List.replicate ((tcn - current) * elsize) 0
    match init_fn with
    | none => (zeroed, tcn)
    | some f => (runInits f elsize zeroed (List.range' current (tcn - current)), tcn)
  else
    (table, current)

/-- Embedding of `debug_amtable_free` (alloc.c:550-559) over an
explicit heap of allocated region addresses.  The body releases
`*table` and zeroes `*current`; the `table` handle is passed to the
release primitive by value, so the handle itself is not written.
Returns (new heap, new `*table`, new `*current`). -/
def amfree (heap : Finset Nat) (p : Option Nat) : Finset Nat :=
  match p with
  | none => heap
  | some a => heap.erase a

/-- Modelled from the spec: `debug_amfree` is defined outside the
sampled sources; per the spec's release primitive it releases the
given region (here: removes its address from the heap) and, taking
the pointer by value, cannot modify the caller's handle. -/
def debug_amtable_free (heap : Finset Nat) (table : Option Nat) (current : Nat) :
    Finset Nat × Option Nat × Nat :=
  (amfree heap table, table, 0)

/-- Counterexample to claim C2 as stated: growing an empty table to a
desired count of 8 with bump 8 sets the capacity to 16, while the
smallest multiple of 8 that is at least 8 is 8 itself. -/
theorem amtable_capacity_cex :
    (debug_amtable_alloc [] 0 1 8 8 none).2 = 16
    ∧ specRoundUp 8 8 = 8
    ∧ ¬ (debug_amtable_alloc [] 0 1 8 8 none).2 = specRoundUp 8 8 := by
  refine ⟨rfl, rfl, ?_⟩
  decide

/-- Claim C2, amended: whenever `debug_amtable_alloc` grows the table
(`desiredCount >= currentCapacity`) and `bump` is positive, the new
capacity it sets is the smallest multiple of `bump` that is strictly
greater than `desiredCount` — a multiple of `bump`, above
`desiredCount`, and within `bump` of it (which pins down the least
such multiple); when `bump` divides `desiredCount` this exceeds the
smallest multiple that is merely greater than or equal. -/
theorem amtable_capacity_strict (table : List Nat) (current elsize count bump : Nat)
    (init_fn : Option (List Nat → List Nat))
    (hb : 1 ≤ bump) (hc : current ≤ count) :
    bump ∣ (debug_amtable_alloc table current elsize count bump init_fn).2
    ∧ count < (debug_amtable_alloc table current elsize count bump init_fn).2
    ∧ (debug_amtable_alloc table current elsize count bump init_fn).2 ≤ count + bump := by
  have hcap : (debug_amtable_alloc table current elsize count bump init_fn).2
      = newCapOf count bump := by
    unfold debug_amtable_alloc
    rw [if_pos hc]
    cases init_fn <;> rfl
  rw [hcap]
  unfold newCapOf
  have hdiv : (count + bump) / bump = count / bump + 1 := Nat.add_div_right count hb
  have hmod := Nat.div_add_mod count bump
  have hmlt : count % bump < bump := Nat.mod_lt count hb
  rw [hdiv]
  have hcomm : bump * (count / bump) = count / bump * bump := Nat.mul_comm _ _
  have hsplit : (count / bump + 1) * bump = count / bump * bump + bump := by ring
  refine ⟨Dvd.intro_left _ rfl, ?_, ?_⟩
  · omega
  · have h1 : count / bump * bump ≤ count := Nat.div_mul_le_self count bump
    omega

/-- Witness for the amended claim C2 at a concrete input: growing to
count 5 with bump 8 yields a capacity that is a multiple of 8,
greater than 5, and at most 13 (namely 8). -/
theorem amtable_capacity_strict_witness :
    8 ∣ (debug_amtable_alloc [] 0 1 5 8 none).2
    ∧ 5 < (debug_amtable_alloc [] 0 1 5 8 none).2
    ∧ (debug_amtable_alloc [] 0 1 5 8 none).2 ≤ 5 + 8 :=
  amtable_capacity_strict [] 0 1 5 8 none (by decide) (by decide)

/-- Applying the initializer at element index `i` of a table whose
first `i * elsize` bytes are `pre` rewrites exactly the next
`elsize`-byte block. -/
theorem applyInitAt_block (f : List Nat → List Nat) (elsize i : Nat)
    (pre blk suf : List Nat) (hpre : pre.length = i * elsize)
    (hblk : blk.length = elsize) :
    applyInitAt f (pre ++ blk ++ suf) elsize i = pre ++ f blk ++ suf := by
  unfold applyInitAt
  rw [List.append_assoc pre blk suf]
  rw [List.take_left' hpre, List.drop_left' hpre]
  rw [List.take_left' hblk]
  have hdrop : (pre ++ (blk ++ suf)).drop (i * elsize + elsize) = suf := by
    have h1 : (pre ++ (blk ++ suf)).drop (i * elsize + elsize)
        = ((pre ++ (blk ++ suf)).drop (i * elsize)).drop elsize := by
      rw [List.drop_drop]
    rw [h1, List.drop_left' hpre, List.drop_left' hblk]
  rw [hdrop]

/-- Running the initializer over ascending indices `i, i+1, ...` on a
table made of a fixed prefix `pre` (of byte length `i * elsize`)
followed by `k` zero blocks turns each zero block into `f` of a zero
block, exactly once per block, in order. -/
theorem runInits_zero_blocks (f : List Nat → List Nat) (elsize : Nat)
    (hf : (f (List.replicate elsize 0)).length = elsize) :
    ∀ (k i : Nat) (pre : List Nat), pre.length = i * elsize →
      runInits f elsize
          (pre ++ (List.replicate k (List.replicate elsize 0)).flatten)
          (List.range' i k)
        = pre ++ (List.replicate k (f (List.replicate elsize 0))).flatten := by
  intro k
  induction k with
  | zero =>
    intro i pre _
    rfl
  | succ k ih =>
    intro i pre hpre
    rw [List.range'_succ]
    have hstep : applyInitAt f
        (pre ++ (List.replicate (k + 1) (List.replicate elsize 0)).flatten) elsize i
        = (pre ++ f (List.replicate elsize 0))
          ++ (List.replicate k (List.replicate elsize 0)).flatten := by
      rw [List.replicate_succ, List.flatten_cons, ← List.append_assoc]
      rw [applyInitAt_block f elsize i pre (List.replicate elsize 0) _ hpre
        (List.length_replicate _ _)]
    have hrun : runInits f elsize
        (pre ++ (List.replicate (k + 1) (List.replicate elsize 0)).flatten)
        (i :: List.range' (i + 1) k)
        = runInits f elsize
            ((pre ++ f (List.replicate elsize 0))
              ++ (List.replicate k (List.replicate elsize 0)).flatten)
            (List.range' (i + 1) k) := by
      unfold runInits
      rw [List.foldl_cons, hstep]
    rw [hrun]
    rw [ih (i + 1) (pre ++ f (List.replicate elsize 0))
      (by rw [List.length_append, hpre, hf]; ring)]
    simp [List.replicate_succ, List.append_assoc]

/-- A flat run of `k * elsize` zero bytes is `k` zero blocks of
`elsize` bytes each. -/
theorem replicate_zero_flatten (k elsize : Nat) :
    (List.replicate (k * elsize) (0 : Nat))
      = (List.replicate k (List.replicate elsize (0 : Nat))).flatten := by
  induction k with
  | zero => simp
  | succ k ih =>
    rw [List.replicate_succ, List.flatten_cons, ← ih]
    have hm : (k + 1) * elsize = elsize + k * elsize := by ring
    rw [hm, List.replicate_add]

/-- Claim C8: `debug_amtable_alloc` with `desiredCount < currentCapacity`
is a no-op leaving table and capacity unchanged (with or without an
initializer); when it grows, the old bytes are preserved at their
offsets as the prefix of the new image, the added tail is exactly
`(newCapacity - currentCapacity) * elsize` zero bytes, and a supplied
initializer is applied exactly once per newly added element (each
seeing its zeroed block) in ascending index order. -/
theorem amtable_grow_preserves (table : List Nat) (current elsize count bump : Nat)
    (f : List Nat → List Nat)
    (hlen : table.length = current * elsize)
    (hf : (f (List.replicate elsize 0)).length = elsize) :
    (count < current →
      debug_amtable_alloc table current elsize count bump none = (table, current)
      ∧ debug_amtable_alloc table current elsize count bump (some f) = (table, current))
    ∧ (current ≤ count →
      (debug_amtable_alloc table current elsize count bump none).1
        = table ++ List.replicate ((newCapOf count bump - current) * elsize) 0
      ∧ (debug_amtable_alloc table current elsize count bump (some f)).1
        = table
          ++ (List.replicate (newCapOf count bump - current)
                (f (List.replicate elsize 0))).flatten) := by
  constructor
  · intro hlt
    have hng : ¬ current ≤ count := not_le.mpr hlt
    unfold debug_amtable_alloc
    rw [if_neg hng, if_neg hng]
    exact ⟨rfl, rfl⟩
  · intro hle
    have htake : table.take (current * elsize) = table :=
      List.take_of_length_le (le_of_eq hlen)
    constructor
    · unfold debug_amtable_alloc
      rw [if_pos hle]
      simp only [htake]
    · unfold debug_amtable_alloc
      rw [if_pos hle]
      simp only [htake]
      rw [replicate_zero_flatten (newCapOf count bump - current) elsize]
      exact runInits_zero_blocks f elsize hf (newCapOf count bump - current)
        current table hlen

/-- Witness for claim C8: a table of 3 two-byte elements `[1..6]`
grown to count 4 with bump 8 keeps its bytes as the prefix, gets 10
zero tail bytes (no initializer) or 5 initialized blocks `[7, 7]`
(initializer writing `[7, 7]`), and a call with count 2 is a no-op. -/
theorem amtable_grow_preserves_witness :
    ((debug_amtable_alloc [1, 2, 3, 4, 5, 6] 3 2 4 8 none).1
        = [1, 2, 3, 4, 5, 6] ++ List.replicate ((newCapOf 4 8 - 3) * 2) 0
      ∧ (debug_amtable_alloc [1, 2, 3, 4, 5, 6] 3 2 4 8 (some (fun _ => [7, 7]))).1
        = [1, 2, 3, 4, 5, 6]
          ++ (List.replicate (newCapOf 4 8 - 3)
                ((fun _ => [7, 7]) (List.replicate 2 (0 : Nat)))).flatten)
    ∧ (debug_amtable_alloc [1, 2, 3, 4, 5, 6] 3 2 2 8 none
        = ([1, 2, 3, 4, 5, 6], 3)
      ∧ debug_amtable_alloc [1, 2, 3, 4, 5, 6] 3 2 2 8 (some (fun _ => [7, 7]))
        = ([1, 2, 3, 4, 5, 6], 3)) :=
  ⟨(amtable_grow_preserves [1, 2, 3, 4, 5, 6] 3 2 4 8 (fun _ => [7, 7])
      (by decide) (by decide)).2 (by decide),
   (amtable_grow_preserves [1, 2, 3, 4, 5, 6] 3 2 2 8 (fun _ => [7, 7])
      (by decide) (by decide)).1 (by decide)⟩

/-- Claim C10: `debug_amtable_free` zeroes the caller's capacity and
releases the backing region, but leaves the table handle itself
unchanged, still holding the address of the now-released region, so
the caller must re-zero the handle before a further release is safe. -/
theorem amtable_free_frame (heap : Finset Nat) (table : Option Nat) (current : Nat) :
    (debug_amtable_free heap table current).2.1 = table
    ∧ (debug_amtable_free heap table current).2.2 = 0
    ∧ (∀ a, table = some a → a ∉ (debug_amtable_free heap table current).1) := by
  refine ⟨rfl, rfl, ?_⟩
  intro a ha
  subst ha
  exact Finset.not_mem_erase a heap

/-- Witness for claim C10 at a concrete input: releasing a table at
address 5 (capacity 3) leaves the handle at 5 and capacity 0, with
address 5 no longer allocated. -/
theorem amtable_free_frame_witness :
    (debug_amtable_free {5} (some 5) 3).2.1 = some 5
    ∧ (debug_amtable_free {5} (some 5) 3).2.2 = 0
    ∧ 5 ∉ (debug_amtable_free {5} (some 5) 3).1 :=
  ⟨(amtable_free_frame {5} (some 5) 3).1,
   (amtable_free_frame {5} (some 5) 3).2.1,
   (amtable_free_frame {5} (some 5) 3).2.2 5 rfl⟩

/-- The last path segment of a file name (alloc.c:81-82): everything
after the last slash, or the whole name when it has no slash. -/
def basenameOf (file : List Char) : List Char :=
  (file.reverse.takeWhile (fun c => c ≠ '/')).reverse

/-- The location string built by `debug_caller_loc` (alloc.c:84):
`snprintf(loc, 256, "%s@%d", basename, line)`, i.e.
`"<basename>@<line>"` truncated to at most 255 characters before the
terminating nul. -/
def locOf (file : List Char) (line : Int) : List Char :=
  ((basenameOf file ++ '@' :: (toString line).toList).take 255)

/-- Embedding of `debug_caller_loc` (alloc.c:67-116).  The registry
state is the list of interned location strings, most recently used
first.  On a hit the entry is moved to the front (a hit at the front
leaves the list unchanged); on a miss, if the two registry
allocations succeed (`allocOk`), the new string is inserted at the
front, otherwise the sentinel `"??"` is returned and the registry is
unchanged.  Returns the descriptor content and the new registry. -/
def debug_caller_loc (allocOk : Bool) (st : List (List Char)) (file : List Char)
    (line : Int) : List Char × List (List Char) :=
  let loc := locOf file line
  if loc ∈ st then
    (loc, loc :: st.erase loc)
  else if allocOk then
    (loc, loc :: st)
  else
    (['?', '?'], st)

/-- Claim C9: interning is idempotent.  For every registry state and
`(file, line)` pair, after a first call whose registry allocation (if
any) succeeds, an immediately following call with the same pair
returns a descriptor with identical content and leaves the registry
exactly as the first call left it — in particular its length does not
increase (this holds whether or not the second call could allocate,
since it always hits). -/
theorem caller_loc_idempotent (st : List (List Char)) (file : List Char)
    (line : Int) (ok2 : Bool) :
    (debug_caller_loc ok2 (debug_caller_loc true st file line).2 file line).1
      = (debug_caller_loc true st file line).1
    ∧ (debug_caller_loc ok2 (debug_caller_loc true st file line).2 file line).2
      = (debug_caller_loc true st file line).2 := by
  unfold debug_caller_loc
  by_cases h : locOf file line ∈ st
  · rw [if_pos h]
    have hmem : locOf file line ∈ locOf file line :: st.erase (locOf file line) :=
      List.mem_cons_self _ _
    rw [if_pos hmem, List.erase_cons_head]
    exact ⟨rfl, rfl⟩
  · rw [if_neg h, if_pos rfl]
    have hmem : locOf file line ∈ locOf file line :: st :=
      List.mem_cons_self _ _
    rw [if_pos hmem, List.erase_cons_head]
    exact ⟨rfl, rfl⟩

/-- One process environment variable as a (name, value) pair; its raw
`environ` entry is `name ++ "=" ++ value`, and names never contain
`'='`. -/
structure EnvPair where
  name : List Char
  value : List Char
deriving DecidableEq

/-- The raw `"NAME=VALUE"` string of an environment pair, as stored
in `environ`. -/
def render (p : EnvPair) : List Char := p.name ++ '=' :: p.value

/-- The process state `safe_env` consults: the environment, the real
and effective user and group identifiers, and a success oracle for
the successive allocation calls made inside one `safe_env` call
(index 0 is the envp-array `malloc`; indices 1, 2, ... are the
per-entry string allocations in order). -/
structure Sys where
  environ : List EnvPair
  ruid : Nat
  euid : Nat
  rgid : Nat
  egid : Nat
  oracle : Nat → Bool

/-- `getenv` over the modelled environment: the value of the first
entry with the given name, if any. -/
def getenvFn (sys : Sys) (n : List Char) : Option (List Char) :=
  (sys.environ.find? (fun p => p.name == n)).map (fun p => p.value)

/-- The literal `"LANG="` tested by `strncmp("LANG=", *env, 5)`
(alloc.c:459). -/
def LANG_EQ : List Char := ['L', 'A', 'N', 'G', '=']

/-- The literal `"LC_"` tested by `strncmp("LC_", *env, 3)`
(alloc.c:460). -/
def LC_PAT : List Char := ['L', 'C', '_']

/-- The variable name `"LANG"`. -/
def LANG_NAME : List Char := ['L', 'A', 'N', 'G']

/-- The filter applied to raw entries in the matching-identifiers
branch of `safe_env` (alloc.c:459-460): keep an entry unless it
starts with `"LANG="` or with `"LC_"`. -/
def keepEntry (e : List Char) : Bool :=
  !(LANG_EQ.isPrefixOf e) && !(LC_PAT.isPrefixOf e)

/-- The allow-list `safe_env_list` (alloc.c:422-432) in the base
configuration (no `__CYGWIN__` `"SYSTEMROOT"`, no `NEED_PATH_ENV`
`"PATH"` entry): `"TZ"` and `"DISPLAY"`. -/
def safe_env_list : List (List Char) :=
  [['T', 'Z'], ['D', 'I', 'S', 'P', 'L', 'A', 'Y']]

/-- The allow-list loop of `safe_env` (alloc.c:472-486): for each
listed name that is currently set, allocate and build `"NAME=VALUE"`;
an allocation failure breaks out of the loop, keeping the entries
built so far and terminating the list there. -/
def safeEnvGo (sys : Sys) : List (List Char) → Nat → List (List Char)
  | [], _ => []
  | p :: ps, k =>
    match getenvFn sys p with
    | none => safeEnvGo sys ps k
    | some v =>
      if sys.oracle k then (p ++ '=' :: v) :: safeEnvGo sys ps (k + 1)
      else []

/-- Embedding of `safe_env` (alloc.c:419-490).  If the real and
effective user and group identifiers match, the entire environment is
copied except entries starting with `"LANG="` or `"LC_"`; the copy of
each kept entry goes through `stralloc`, which is fatal
(`errordump`) on allocation failure, while failure of the initial
array `malloc` degrades to the empty list.  Otherwise only the
allow-listed names currently set are rebuilt as `"NAME=VALUE"` with
plain `malloc`, failure of a per-entry allocation breaking out with a
partial list and failure of the initial array `malloc` degrading to
the empty list. -/
def safe_env (sys : Sys) : AllocResult (List (List Char)) :=
  if sys.ruid = sys.euid ∧ sys.rgid = sys.egid then
    if sys.oracle 0 then
      if (List.range ((sys.environ.map render).filter keepEntry).length).all
          (fun i => sys.oracle (i + 1)) then
        AllocResult.ok ((sys.environ.map render).filter keepEntry)
      else
        AllocResult.fatal
    else
      AllocResult.ok []
  else
    if sys.oracle 0 then AllocResult.ok (safeEnvGo sys safe_env_list 1)
    else AllocResult.ok []

/-- Two booleans whose truth conditions agree are equal. -/
theorem bool_ext (a b : Bool) (h : a = true ↔ b = true) : a = b := by
  cases a <;> cases b <;> simp_all

/-- On a raw entry whose name contains no `'='`, the `"LANG="` test
of alloc.c:459 holds exactly when the name is `"LANG"`. -/
theorem isPrefixOf_langeq (name v : List Char) (h : '=' ∉ name) :
    LANG_EQ.isPrefixOf (name ++ '=' :: v) = (name == LANG_NAME) := by
  apply bool_ext
  rcases name with _ | ⟨c1, _ | ⟨c2, _ | ⟨c3, _ | ⟨c4, _ | ⟨c5, rest⟩⟩⟩⟩⟩ <;>
    (simp_all [List.isPrefixOf, LANG_EQ, LANG_NAME]; try aesop)

/-- The `"LC_"` test of alloc.c:460 on a raw entry holds exactly when
the entry's name itself starts with `"LC_"` (the separator `'='`
cannot complete an `"LC_"` match, since `"LC_"` contains no `'='`). -/
theorem isPrefixOf_lcpat (name v : List Char) :
    LC_PAT.isPrefixOf (name ++ '=' :: v) = LC_PAT.isPrefixOf name := by
  apply bool_ext
  rcases name with _ | ⟨c1, _ | ⟨c2, _ | ⟨c3, rest⟩⟩⟩ <;>
    (simp [List.isPrefixOf, LC_PAT]; try aesop)

/-- The raw-entry filter of the matching-identifiers branch agrees
with the name-level description: keep an entry unless its name is
`"LANG"` or its name starts with `"LC_"`. -/
theorem keepEntry_render (p : EnvPair) (h : '=' ∉ p.name) :
    keepEntry (render p) = (!(p.name == LANG_NAME) && !(LC_PAT.isPrefixOf p.name)) := by
  unfold keepEntry render
  rw [isPrefixOf_langeq p.name p.value h, isPrefixOf_lcpat p.name p.value]

/-- With every allocation succeeding, the allow-list loop rebuilds
exactly the allow-listed names that are set, in list order. -/
theorem safeEnvGo_all_ok (sys : Sys) (hok : ∀ k, sys.oracle k = true) :
    ∀ (ps : List (List Char)) (k : Nat),
      safeEnvGo sys ps k
        = ps.filterMap (fun n => (getenvFn sys n).map (fun v => n ++ '=' :: v)) := by
  intro ps
  induction ps with
  | nil => intro k; rfl
  | cons p ps ih =>
    intro k
    cases hg : getenvFn sys p with
    | none => simp [safeEnvGo, hg, ih k]
    | some v => simp [safeEnvGo, hg, hok k, ih (k + 1)]

/-- Claim C7: when the real and effective user and group identifiers
match, `safe_env` (with all allocations succeeding, over well-formed
entries whose names contain no `'='`) returns a copy of the process
environment containing exactly the entries whose name is not `LANG`
and does not start with `LC_`; when the identifiers differ, it
returns exactly the allow-listed variable names that are currently
set, each reconstructed as `"NAME=VALUE"` in allow-list order. -/
theorem safe_env_filtering (sys : Sys)
    (hok : ∀ k, sys.oracle k = true)
    (hwf : ∀ p ∈ sys.environ, '=' ∉ p.name) :
    ((sys.ruid = sys.euid ∧ sys.rgid = sys.egid) →
      safe_env sys = AllocResult.ok
        ((sys.environ.filter
            (fun p => !(p.name == LANG_NAME) && !(LC_PAT.isPrefixOf p.name))).map render))
    ∧ (¬ (sys.ruid = sys.euid ∧ sys.rgid = sys.egid) →
      safe_env sys = AllocResult.ok
        (safe_env_list.filterMap
          (fun n => (getenvFn sys n).map (fun v => n ++ '=' :: v)))) := by
  have hkept : (sys.environ.map render).filter keepEntry
      = (sys.environ.filter
          (fun p => !(p.name == LANG_NAME) && !(LC_PAT.isPrefixOf p.name))).map render := by
    rw [List.filter_map]
    congr 1
    apply List.filter_congr
    intro p hp
    simpa [Function.comp] using keepEntry_render p (hwf p hp)
  constructor
  · intro hids
    unfold safe_env
    rw [if_pos hids, hok 0, if_pos rfl]
    have hall : (List.range ((sys.environ.map render).filter keepEntry).length).all
        (fun i => sys.oracle (i + 1)) = true := by
      rw [List.all_eq_true]
      intro i _
      exact hok (i + 1)
    rw [if_pos hall, hkept]
  · intro hids
    unfold safe_env
    rw [if_neg hids, hok 0, if_pos rfl]
    rw [safeEnvGo_all_ok sys hok safe_env_list 1]

/-- A system in the matching-identifiers branch whose envp-array
allocation (index 0) succeeds but whose first per-entry `stralloc`
(index 1) fails. -/
def sysCexC3 : Sys :=
  { environ := [{ name := ['A'], value := ['1'] }]
    ruid := 0, euid := 0, rgid := 0, egid := 0
    oracle := fun k => k == 0 }

/-- Counterexample to claim C3 as stated: in the matching-identifiers
branch, a failure of the per-entry string duplication escalates to the
fatal termination path (`stralloc` goes through the fail-fast
allocator), instead of degrading to a smaller valid list. -/
theorem safe_env_fatal_cex :
    (sysCexC3.ruid = sysCexC3.euid ∧ sysCexC3.rgid = sysCexC3.egid)
    ∧ safe_env sysCexC3 = AllocResult.fatal := by
  exact ⟨⟨rfl, rfl⟩, rfl⟩

/-- Claim C3, amended: `safe_env` always returns a valid
null-terminated list in the differing-identifiers branch (degrading
on allocation failure to a partial or empty list), and in both
branches a failure of the initial array allocation degrades to the
empty list; but the matching-identifiers branch duplicates each kept
entry with the fail-fast `stralloc`, so the only way to reach the
fatal path is a per-entry duplication failure in that branch after a
successful initial allocation. -/
theorem safe_env_soft_degradation (sys : Sys) :
    (¬ (sys.ruid = sys.euid ∧ sys.rgid = sys.egid) →
      ∃ l, safe_env sys = AllocResult.ok l)
    ∧ (sys.oracle 0 = false → safe_env sys = AllocResult.ok [])
    ∧ (safe_env sys = AllocResult.fatal →
      (sys.ruid = sys.euid ∧ sys.rgid = sys.egid) ∧ sys.oracle 0 = true) := by
  refine ⟨?_, ?_, ?_⟩
  · intro hids
    unfold safe_env
    rw [if_neg hids]
    by_cases h0 : sys.oracle 0 = true
    · rw [h0, if_pos rfl]
      exact ⟨_, rfl⟩
    · rw [Bool.not_eq_true] at h0
      rw [h0, if_neg Bool.false_ne_true]
      exact ⟨_, rfl⟩
  · intro h0
    unfold safe_env
    by_cases hids : sys.ruid = sys.euid ∧ sys.rgid = sys.egid
    · rw [if_pos hids, h0, if_neg Bool.false_ne_true]
    · rw [if_neg hids, h0, if_neg Bool.false_ne_true]
  · intro hfat
    by_cases hids : sys.ruid = sys.euid ∧ sys.rgid = sys.egid
    · refine ⟨hids, ?_⟩
      by_cases h0 : sys.oracle 0 = true
      · exact h0
      · rw [Bool.not_eq_true] at h0
        unfold safe_env at hfat
        rw [if_pos hids, h0, if_neg Bool.false_ne_true] at hfat
        simp at hfat
    · unfold safe_env at hfat
      rw [if_neg hids] at hfat
      by_cases h0 : sys.oracle 0 = true
      · rw [h0, if_pos rfl] at hfat
        simp at hfat
      · rw [Bool.not_eq_true] at h0
        rw [h0, if_neg Bool.false_ne_true] at hfat
        simp at hfat

/-- An unprivileged system (matching identifiers) with locale
variables set, all allocations succeeding. -/
def sysUnpriv : Sys :=
  { environ := [{ name := ['L', 'A', 'N', 'G'], value := ['C'] },
                { name := ['L', 'C', '_', 'A', 'L', 'L'], value := ['C'] },
                { name := ['H', 'O', 'M', 'E'], value := ['h'] }]
    ruid := 0, euid := 0, rgid := 0, egid := 0
    oracle := fun _ => true }

/-- A privileged system (effective uid differs from real uid) with
`TZ` set and `DISPLAY` unset, all allocations succeeding. -/
def sysPriv : Sys :=
  { environ := [{ name := ['T', 'Z'], value := ['U', 'T', 'C'] },
                { name := ['H', 'O', 'M', 'E'], value := ['h'] }]
    ruid := 0, euid := 1, rgid := 0, egid := 0
    oracle := fun _ => true }

/-- Witness for claim C7 at concrete systems: the unprivileged branch
keeps `HOME` and drops `LANG` and `LC_ALL`; the privileged branch
rebuilds exactly the set allow-listed variable `TZ`. -/
theorem safe_env_filtering_witness :
    safe_env sysUnpriv = AllocResult.ok
      ((sysUnpriv.environ.filter
          (fun p => !(p.name == LANG_NAME) && !(LC_PAT.isPrefixOf p.name))).map render)
    ∧ safe_env sysPriv = AllocResult.ok
        (safe_env_list.filterMap
          (fun n => (getenvFn sysPriv n).map (fun v => n ++ '=' :: v))) :=
  ⟨(safe_env_filtering sysUnpriv (fun _ => rfl) (by decide)).1 ⟨rfl, rfl⟩,
   (safe_env_filtering sysPriv (fun _ => rfl) (by decide)).2 (by decide)⟩

/-- A privileged system in which every allocation fails. -/
def sysPrivFail : Sys :=
  { environ := [], ruid := 2, euid := 0, rgid := 0, egid := 0
    oracle := fun _ => false }

/-- Witness for the amended claim C3 at a concrete system: with
differing identifiers and every allocation failing, `safe_env` still
returns a valid list, namely the empty one. -/
theorem safe_env_soft_degradation_witness :
    (∃ l, safe_env sysPrivFail = AllocResult.ok l)
    ∧ safe_env sysPrivFail = AllocResult.ok [] :=
  ⟨(safe_env_soft_degradation sysPrivFail).1 (by decide),
   (safe_env_soft_degradation sysPrivFail).2.1 rfl⟩

end Amanda
